import Mathlib

/-!
Verification of the playlist membership and ordering subsystem of the
playlist-api repository (TypeScript / Express / SQLite).

The repository snapshot contains the SQLite schema (`src/__tests__/setup.ts`),
the type definitions (`src/types/models.ts`), the request-validation schemas,
the routes, and the controller test-suite
(`src/controllers/__tests__/playlists.test.ts`), but the controller module
`src/controllers/playlists.ts` itself is not part of the snapshot.  The
operations below are therefore modelled from the specification (spec.md
sections 4.2, 6, 7 and 8), with the error messages and observable response
shapes pinned down by the test-suite.

Modelling conventions:
* a `Store` is the part of the relational state the membership engine reads
  and writes: the `playlists` table (id and owner), the set of song ids, and
  the `playlist_songs` junction table;
* each operation returns the post-state together with an `Except`-typed
  outcome, mirroring "one typed outcome per call"; a failing call returns the
  input state unchanged, mirroring the one-transaction-per-mutation rule;
* the `fault : Bool` argument injects an underlying storage failure inside
  the transaction (the test-suite does this by making a prepared statement
  throw); atomicity means such a call also leaves the state unchanged.
-/

namespace PlaylistApi

/-- A row of the `playlists` table, restricted to the fields the membership
engine and the by-user listing read (`id`, `user_id`). -/
structure PlaylistRow where
  id : Nat
  user_id : Nat
  deriving Repr, DecidableEq

/-- A row of the `playlist_songs` junction table: composite key
`(playlist_id, song_id)` plus the 1-indexed `position`. -/
structure PlaylistSongRow where
  playlist_id : Nat
  song_id : Nat
  position : Nat
  deriving Repr, DecidableEq

/-- The relational state read and written by the membership engine. -/
structure Store where
  playlists : List PlaylistRow
  songs : List Nat
  playlist_songs : List PlaylistSongRow
  deriving Repr, DecidableEq

/-- Error taxonomy of the engine (spec.md section 7): `NotFound` with the
entity-kind message, `Conflict`, and an opaque `StorageError`. -/
inductive ApiError where
  | notFound (msg : String)
  | conflict (msg : String)
  | storageError
  deriving Repr, DecidableEq

/-- `SELECT 1 FROM playlists WHERE id = ?` — playlist existence check. -/
def playlistExists (s : Store) (pid : Nat) : Bool :=
  s.playlists.any (fun p => p.id == pid)

/-- `SELECT 1 FROM songs WHERE id = ?` — song existence check. -/
def songExists (s : Store) (sid : Nat) : Bool :=
  s.songs.any (fun q => q == sid)

/-- Does row `r` carry the composite key `(pid, sid)`? -/
def isMemberRow (pid sid : Nat) (r : PlaylistSongRow) : Bool :=
  r.playlist_id == pid && r.song_id == sid

/-- `SELECT 1 FROM playlist_songs WHERE playlist_id = ? AND song_id = ?`. -/
def membershipExists (s : Store) (pid sid : Nat) : Bool :=
  s.playlist_songs.any (isMemberRow pid sid)

/-- The member rows of playlist `pid`
(`SELECT * FROM playlist_songs WHERE playlist_id = ?`). -/
def membersOf (rows : List PlaylistSongRow) (pid : Nat) : List PlaylistSongRow :=
  rows.filter (fun r => r.playlist_id == pid)

/-- The position values in use in playlist `pid`. -/
def positionsOf (rows : List PlaylistSongRow) (pid : Nat) : List Nat :=
  (membersOf rows pid).map (fun r => r.position)

/-- The shift step of insert-at-position: a row of playlist `pid` whose
position is at least `target` moves up by one; every other row is untouched
(`UPDATE playlist_songs SET position = position + 1
  WHERE playlist_id = ? AND position >= ?`). -/
def shiftUpFrom (pid target : Nat) (r : PlaylistSongRow) : PlaylistSongRow :=
  if r.playlist_id = pid ∧ target ≤ r.position then
    { r with position := r.position + 1 }
  else r

/-- Modelled from the spec: `addSongToPlaylist` of the missing controller
`src/controllers/playlists.ts` (spec.md section 4.2, "Add song to playlist").
Checks playlist existence, song existence and duplicate membership in that
order; the target position is the supplied one, or member count + 1 when
omitted; existing rows at positions `≥ target` are shifted up by one and the
new row is inserted at `target`, all in one transaction; the resolved
position is echoed back.  Error messages follow the controller test-suite. -/
def addSongToPlaylist (s : Store) (pid sid : Nat) (posArg : Option Nat) (fault : Bool) :
    Store × Except ApiError Nat :=
  if playlistExists s pid = false then
    (s, Except.error (ApiError.notFound "Playlist not found"))
  else if songExists s sid = false then
    (s, Except.error (ApiError.notFound "Song not found"))
  else if membershipExists s pid sid then
    (s, Except.error (ApiError.conflict "Song already in playlist"))
  else if fault then
    (s, Except.error ApiError.storageError)
  else
    let target := posArg.getD ((membersOf s.playlist_songs pid).length + 1)
    ({ s with playlist_songs :=
        ⟨pid, sid, target⟩ :: s.playlist_songs.map (shiftUpFrom pid target) },
     Except.ok target)

/-- The compaction step of removal: a row of playlist `pid` whose position
exceeds `p` moves down by one
(`UPDATE playlist_songs SET position = position - 1
  WHERE playlist_id = ? AND position > ?`). -/
def decAbove (pid p : Nat) (r : PlaylistSongRow) : PlaylistSongRow :=
  if r.playlist_id = pid ∧ p < r.position then
    { r with position := r.position - 1 }
  else r

/-- Modelled from the spec: `removeSongFromPlaylist` of the missing controller
(spec.md section 4.2, "Remove song from playlist").  Requires the membership
row to exist, records its position, deletes it, and decrements the position
of every remaining row of that playlist above it, in one transaction. -/
def removeSongFromPlaylist (s : Store) (pid sid : Nat) (fault : Bool) :
    Store × Except ApiError Unit :=
  match s.playlist_songs.find? (isMemberRow pid sid) with
  | none => (s, Except.error (ApiError.notFound "Song not found in playlist"))
  | some row =>
    if fault then
      (s, Except.error ApiError.storageError)
    else
      let remaining := s.playlist_songs.filter (fun r => !(isMemberRow pid sid r))
      ({ s with playlist_songs := remaining.map (decAbove pid row.position) },
       Except.ok ())

/-- Modelled from the spec: `reorderSong` of the missing controller
(spec.md section 4.2, "Reorder song").  Requires the membership row to exist
and overwrites its position with `newPos` directly, shifting no other row;
the new position is echoed back. -/
def reorderSong (s : Store) (pid sid newPos : Nat) (fault : Bool) :
    Store × Except ApiError Nat :=
  if membershipExists s pid sid = false then
    (s, Except.error (ApiError.notFound "Song not found in playlist"))
  else if fault then
    (s, Except.error ApiError.storageError)
  else
    ({ s with playlist_songs :=
        s.playlist_songs.map (fun r =>
          if isMemberRow pid sid r then { r with position := newPos } else r) },
     Except.ok newPos)

/-- Modelled from the spec: `deletePlaylist` of the missing controller.
Deleting a playlist removes the playlist row and, by the
`ON DELETE CASCADE` constraint of `playlist_songs.playlist_id`
(`src/__tests__/setup.ts`), every membership row of that playlist. -/
def deletePlaylist (s : Store) (pid : Nat) (fault : Bool) :
    Store × Except ApiError Unit :=
  if playlistExists s pid = false then
    (s, Except.error (ApiError.notFound "Playlist not found"))
  else if fault then
    (s, Except.error ApiError.storageError)
  else
    ({ playlists := s.playlists.filter (fun p => !(p.id == pid)),
       songs := s.songs,
       playlist_songs := s.playlist_songs.filter (fun r => !(r.playlist_id == pid)) },
     Except.ok ())

/-- The per-row compaction applied when song `sid` is deleted: if the
playlist of row `r` contained `sid` at position `P` (looked up in the
pre-state `rows`), and `r` sits above `P`, then `r` moves down by one. -/
def decForSongDelete (rows : List PlaylistSongRow) (sid : Nat)
    (r : PlaylistSongRow) : PlaylistSongRow :=
  match rows.find? (isMemberRow r.playlist_id sid) with
  | some q => if q.position < r.position then { r with position := r.position - 1 } else r
  | none => r

/-- Modelled from the spec: `deleteSong` of the missing controller
`src/controllers/songs.ts` (spec.md section 8, "Cascade").  Deleting a song
removes the song row, removes its membership row from every playlist that
contained it (the `ON DELETE CASCADE` constraint of
`playlist_songs.song_id`), and compacts each affected playlist
independently. -/
def deleteSong (s : Store) (sid : Nat) (fault : Bool) :
    Store × Except ApiError Unit :=
  if songExists s sid = false then
    (s, Except.error (ApiError.notFound "Song not found"))
  else if fault then
    (s, Except.error ApiError.storageError)
  else
    let remaining := s.playlist_songs.filter (fun r => !(r.song_id == sid))
    ({ playlists := s.playlists,
       songs := s.songs.filter (fun q => !(q == sid)),
       playlist_songs := remaining.map (decForSongDelete s.playlist_songs sid) },
     Except.ok ())

/-- `getPlaylistsByUser` of the missing controller: `SELECT * FROM playlists
WHERE user_id = ?` (the test-suite pins that a non-existent user id yields an
empty list, not an error; no user-existence check is performed). -/
def getPlaylistsByUser (s : Store) (uid : Nat) :
    Store × Except ApiError (List PlaylistRow) :=
  (s, Except.ok (s.playlists.filter (fun p => p.user_id == uid)))

/-- Density (spec.md section 3): the position values in use form the
contiguous run `[1, ..., k]` up to order, where `k` is the member count. -/
def densePositions (l : List Nat) : Prop :=
  List.Perm l (List.range' 1 l.length)

instance densePositionsDecidable (l : List Nat) : Decidable (densePositions l) :=
  List.decidablePerm l (List.range' 1 l.length)

/-- Well-formedness of playlist `pid` in store `s`: its positions are dense
and its song ids are pairwise distinct (the `PRIMARY KEY (playlist_id,
song_id)` constraint of `playlist_songs`). -/
def WfPlaylist (s : Store) (pid : Nat) : Prop :=
  densePositions (positionsOf s.playlist_songs pid) ∧
  List.Nodup ((membersOf s.playlist_songs pid).map (fun r => r.song_id))

instance wfPlaylistDecidable (s : Store) (pid : Nat) : Decidable (WfPlaylist s pid) :=
  inferInstanceAs (Decidable (_ ∧ _))

/-- An add or remove step against a fixed playlist, as used by the density
invariant (reorder is excluded there on purpose). -/
inductive MembershipOp where
  | add (sid : Nat) (posArg : Option Nat)
  | remove (sid : Nat)
  deriving Repr, DecidableEq

/-- Run one membership operation against playlist `pid` and keep the
post-state (failing calls leave the state unchanged). -/
def applyOp (pid : Nat) (s : Store) : MembershipOp → Store
  | MembershipOp.add sid posArg => (addSongToPlaylist s pid sid posArg false).1
  | MembershipOp.remove sid => (removeSongFromPlaylist s pid sid false).1

/-- Run a sequence of membership operations against playlist `pid`. -/
def applyOps (pid : Nat) (s : Store) (ops : List MembershipOp) : Store :=
  ops.foldl (applyOp pid) s

/-- An operation is in range at state `s` when, if it is an add that supplies
an explicit position `p`, then `1 ≤ p ≤ k + 1` for `k` the current member
count of the playlist. -/
def opInRange (pid : Nat) (s : Store) : MembershipOp → Prop
  | MembershipOp.add _ (some p) =>
      1 ≤ p ∧ p ≤ (membersOf s.playlist_songs pid).length + 1
  | MembershipOp.add _ none => True
  | MembershipOp.remove _ => True

instance opInRangeDecidable (pid : Nat) (s : Store) :
    (op : MembershipOp) → Decidable (opInRange pid s op)
  | MembershipOp.add _ (some _) => inferInstanceAs (Decidable (_ ∧ _))
  | MembershipOp.add _ none => inferInstanceAs (Decidable True)
  | MembershipOp.remove _ => inferInstanceAs (Decidable True)

/-- Every operation of the sequence is in range at the state it runs in. -/
def opsInRange (pid : Nat) : Store → List MembershipOp → Prop
  | _, [] => True
  | s, op :: ops => opInRange pid s op ∧ opsInRange pid (applyOp pid s op) ops

instance opsInRangeDecidable (pid : Nat) :
    (s : Store) → (ops : List MembershipOp) → Decidable (opsInRange pid s ops)
  | _, [] => inferInstanceAs (Decidable True)
  | s, op :: ops =>
    have : Decidable (opsInRange pid (applyOp pid s op) ops) :=
      opsInRangeDecidable pid (applyOp pid s op) ops
    inferInstanceAs (Decidable (_ ∧ _))

/-- Spec scenario 1: appends to an empty playlist yield positions 1 then 2. -/
example :
    (addSongToPlaylist ⟨[⟨1, 1⟩], [10, 11], []⟩ 1 10 none false).2 = Except.ok 1 := by
  rfl

/-- Spec scenario 2: `[A@1, B@2, C@3]`, add `D` at 2 gives `[A@1, D@2, B@3, C@4]`. -/
example :
    (addSongToPlaylist
      ⟨[⟨1, 1⟩], [10, 11, 12, 13], [⟨1, 10, 1⟩, ⟨1, 11, 2⟩, ⟨1, 12, 3⟩]⟩
      1 13 (some 2) false).1.playlist_songs =
    [⟨1, 13, 2⟩, ⟨1, 10, 1⟩, ⟨1, 11, 3⟩, ⟨1, 12, 4⟩] := by
  rfl

/-- Spec scenario 3: `[A@1, B@2, C@3]`, remove `B` gives `[A@1, C@2]`. -/
example :
    (removeSongFromPlaylist
      ⟨[⟨1, 1⟩], [10, 11, 12], [⟨1, 10, 1⟩, ⟨1, 11, 2⟩, ⟨1, 12, 3⟩]⟩
      1 11 false).1.playlist_songs =
    [⟨1, 10, 1⟩, ⟨1, 12, 2⟩] := by
  rfl

/-- Spec scenario 5: `[A@1]`, reorder `A` to 5 gives `[A@5]`, density broken. -/
example :
    (reorderSong ⟨[⟨1, 1⟩], [10], [⟨1, 10, 1⟩]⟩ 1 10 5 false).1.playlist_songs =
      [⟨1, 10, 5⟩] ∧
    ¬ densePositions (positionsOf [PlaylistSongRow.mk 1 10 5] 1) := by
  exact ⟨rfl, by decide⟩

/-! ### Helper lemmas on members and positions -/

theorem mem_membersOf (rows : List PlaylistSongRow) (pid : Nat) (r : PlaylistSongRow) :
    r ∈ membersOf rows pid ↔ r ∈ rows ∧ r.playlist_id = pid := by
  simp [membersOf, List.mem_filter]

theorem membersOf_cons_self (r : PlaylistSongRow) (rows : List PlaylistSongRow)
    (pid : Nat) (h : r.playlist_id = pid) :
    membersOf (r :: rows) pid = r :: membersOf rows pid := by
  simp [membersOf, List.filter_cons, h]

theorem membersOf_map (g : PlaylistSongRow → PlaylistSongRow)
    (hg : ∀ r, (g r).playlist_id = r.playlist_id)
    (rows : List PlaylistSongRow) (pid : Nat) :
    membersOf (rows.map g) pid = (membersOf rows pid).map g := by
  induction rows with
  | nil => rfl
  | cons a t ih =>
    simp only [List.map_cons, membersOf, List.filter_cons, hg a] at *
    by_cases h : (a.playlist_id == pid) = true
    · simp [h, ih]
    · simp only [Bool.not_eq_true] at h
      simp [h, ih]

theorem membersOf_filter (q : PlaylistSongRow → Bool)
    (rows : List PlaylistSongRow) (pid : Nat) :
    membersOf (rows.filter q) pid = (membersOf rows pid).filter q := by
  simp only [membersOf, List.filter_filter]
  exact List.filter_congr (fun a _ => Bool.and_comm _ _)

theorem shiftUpFrom_playlist_id (pid t : Nat) (r : PlaylistSongRow) :
    (shiftUpFrom pid t r).playlist_id = r.playlist_id := by
  unfold shiftUpFrom; split <;> rfl

theorem decAbove_playlist_id (pid p : Nat) (r : PlaylistSongRow) :
    (decAbove pid p r).playlist_id = r.playlist_id := by
  unfold decAbove; split <;> rfl

theorem decForSongDelete_playlist_id (rows : List PlaylistSongRow) (sid : Nat)
    (r : PlaylistSongRow) :
    (decForSongDelete rows sid r).playlist_id = r.playlist_id := by
  unfold decForSongDelete
  rcases h : rows.find? (isMemberRow r.playlist_id sid) with _ | q
  · rfl
  · dsimp only; split <;> rfl

theorem shiftUpFrom_position (pid t : Nat) (r : PlaylistSongRow)
    (h : r.playlist_id = pid) :
    (shiftUpFrom pid t r).position = if t ≤ r.position then r.position + 1 else r.position := by
  unfold shiftUpFrom
  split <;> rename_i hc
  · rw [if_pos hc.2]
  · rw [if_neg (fun hle => hc ⟨h, hle⟩)]

theorem decAbove_position (pid p : Nat) (r : PlaylistSongRow)
    (h : r.playlist_id = pid) :
    (decAbove pid p r).position = if p < r.position then r.position - 1 else r.position := by
  unfold decAbove
  split <;> rename_i hc
  · rw [if_pos hc.2]
  · rw [if_neg (fun hlt => hc ⟨h, hlt⟩)]

/-! ### Density: the two combinatorial facts behind shift and compaction -/

/-- From a permutation with some contiguous run `[1, ..., m]`, density. -/
theorem densePositions_of_perm (l : List Nat) (m : Nat)
    (h : List.Perm l (List.range' 1 m)) : densePositions l := by
  have hlen : l.length = m := by
    have := h.length_eq
    simpa using this
  unfold densePositions
  rw [hlen]
  exact h

/-- Inserting `p` in front of the up-shift of `[1, ..., k]` gives a
permutation of `[1, ..., k+1]`, for `1 ≤ p ≤ k + 1`. -/
theorem shift_cons_perm_range (p k : Nat) (h1 : 1 ≤ p) (h2 : p ≤ k + 1) :
    List.Perm (p :: (List.range' 1 k).map (fun q => if p ≤ q then q + 1 else q))
      (List.range' 1 (k + 1)) := by
  have e1 : (1 : Nat) + (p - 1) = p := by omega
  have hsplit : List.range' 1 (p - 1) ++ List.range' p (k - (p - 1)) = List.range' 1 k := by
    have h := List.range'_append_1 1 (p - 1) (k - (p - 1))
    rw [e1] at h
    rw [h]
    congr 1
    omega
  have hmap1 : (List.range' 1 (p - 1)).map (fun q => if p ≤ q then q + 1 else q) =
      List.range' 1 (p - 1) := by
    have : ∀ a ∈ List.range' 1 (p - 1), (if p ≤ a then a + 1 else a) = a := by
      intro a ha
      rw [List.mem_range'_1] at ha
      rw [if_neg (by omega)]
    rw [List.map_congr_left this]
    simp
  have hmap2 : (List.range' p (k - (p - 1))).map (fun q => if p ≤ q then q + 1 else q) =
      List.range' (p + 1) (k - (p - 1)) := by
    have hc : ∀ a ∈ List.range' p (k - (p - 1)), (if p ≤ a then a + 1 else a) = 1 + a := by
      intro a ha
      rw [List.mem_range'_1] at ha
      rw [if_pos (by omega)]
      omega
    rw [List.map_congr_left hc, List.map_add_range']
    congr 1
    omega
  have hbody : (List.range' 1 k).map (fun q => if p ≤ q then q + 1 else q) =
      List.range' 1 (p - 1) ++ List.range' (p + 1) (k - (p - 1)) := by
    rw [← hsplit, List.map_append, hmap1, hmap2]
  rw [hbody]
  have hmid : List.Perm
      (p :: (List.range' 1 (p - 1) ++ List.range' (p + 1) (k - (p - 1))))
      (List.range' 1 (p - 1) ++ p :: List.range' (p + 1) (k - (p - 1))) :=
    List.perm_middle.symm
  have hfin : List.range' 1 (p - 1) ++ p :: List.range' (p + 1) (k - (p - 1)) =
      List.range' 1 (k + 1) := by
    have hs : p :: List.range' (p + 1) (k - (p - 1)) = List.range' p (k - (p - 1) + 1) := by
      rw [List.range'_succ]
    rw [hs]
    have h := List.range'_append_1 1 (p - 1) (k - (p - 1) + 1)
    rw [e1] at h
    rw [h]
    congr 1
    omega
  rw [hfin] at hmid
  exact hmid

/-- Erasing `p` from `[1, ..., k]` and down-shifting everything above `p`
yields exactly `[1, ..., k-1]`, for `1 ≤ p ≤ k`. -/
theorem erase_dec_eq_range (p k : Nat) (h1 : 1 ≤ p) (h2 : p ≤ k) :
    ((List.range' 1 k).erase p).map (fun q => if p < q then q - 1 else q) =
      List.range' 1 (k - 1) := by
  have herase : (List.range' 1 k).erase p =
      List.range' 1 (p - 1) ++ List.range' (p + 1) (k - p) := by
    rw [List.erase_range']
    congr 1
    · congr 1
      omega
    · congr 1
      · omega
      · omega
  rw [herase, List.map_append]
  have hmap1 : (List.range' 1 (p - 1)).map (fun q => if p < q then q - 1 else q) =
      List.range' 1 (p - 1) := by
    have : ∀ a ∈ List.range' 1 (p - 1), (if p < a then a - 1 else a) = a := by
      intro a ha
      rw [List.mem_range'_1] at ha
      rw [if_neg (by omega)]
    rw [List.map_congr_left this]
    simp
  have hmap2 : (List.range' (p + 1) (k - p)).map (fun q => if p < q then q - 1 else q) =
      List.range' p (k - p) := by
    have hc : ∀ a ∈ List.range' (p + 1) (k - p), (if p < a then a - 1 else a) = a - 1 := by
      intro a ha
      rw [List.mem_range'_1] at ha
      rw [if_pos (by omega)]
    rw [List.map_congr_left hc, List.map_sub_range' 1 (p + 1) (k - p) (by omega)]
    congr 1
  rw [hmap1, hmap2]
  have h := List.range'_append_1 1 (p - 1) (k - p)
  have e1 : (1 : Nat) + (p - 1) = p := by omega
  rw [e1] at h
  rw [h]
  congr 1
  omega

theorem shiftUpFrom_song_id (pid t : Nat) (r : PlaylistSongRow) :
    (shiftUpFrom pid t r).song_id = r.song_id := by
  unfold shiftUpFrom; split <;> rfl

theorem decAbove_song_id (pid p : Nat) (r : PlaylistSongRow) :
    (decAbove pid p r).song_id = r.song_id := by
  unfold decAbove; split <;> rfl

theorem decForSongDelete_song_id (rows : List PlaylistSongRow) (sid : Nat)
    (r : PlaylistSongRow) :
    (decForSongDelete rows sid r).song_id = r.song_id := by
  unfold decForSongDelete
  rcases h : rows.find? (isMemberRow r.playlist_id sid) with _ | q
  · rfl
  · dsimp only; split <;> rfl

/-- Removing the unique row with song id `sid` from a key-unique row list and
reading off positions is, up to order, erasing that row's position value. -/
theorem positions_filter_out (l : List PlaylistSongRow) (sid : Nat)
    (row : PlaylistSongRow) (hmem : row ∈ l) (hsid : row.song_id = sid)
    (hnd : List.Nodup (l.map (fun r => r.song_id))) :
    List.Perm ((l.filter (fun r => !(r.song_id == sid))).map (fun r => r.position))
      ((l.map (fun r => r.position)).erase row.position) := by
  induction l with
  | nil => cases hmem
  | cons a t ih =>
    rw [List.map_cons, List.nodup_cons] at hnd
    obtain ⟨ha, hndt⟩ := hnd
    by_cases hcase : a.song_id = sid
    · have hrow : row = a := by
        rcases List.mem_cons.mp hmem with h | h
        · exact h
        · exact absurd (List.mem_map.mpr ⟨row, h, hsid.trans hcase.symm⟩) ha
      subst hrow
      have hkeep : t.filter (fun r => !(r.song_id == sid)) = t := by
        rw [List.filter_eq_self]
        intro r hr
        simp only [Bool.not_eq_eq_eq_not, Bool.not_true, beq_eq_false_iff_ne, ne_eq]
        intro hr2
        exact ha (List.mem_map.mpr ⟨r, hr, by rw [hr2, ← hcase]⟩)
      rw [List.filter_cons_of_neg (by simp [hcase]), hkeep, List.map_cons,
        List.erase_cons_head]
    · have hrow_t : row ∈ t := by
        rcases List.mem_cons.mp hmem with h | h
        · exact absurd (h ▸ hsid) hcase
        · exact h
      have hperm := ih hrow_t hndt
      have hvmem : row.position ∈ t.map (fun r => r.position) :=
        List.mem_map.mpr ⟨row, hrow_t, rfl⟩
      rw [List.filter_cons_of_pos (by simp [hcase]), List.map_cons, List.map_cons]
      by_cases hv : a.position = row.position
      · rw [hv, List.erase_cons_head]
        exact ((hperm.cons row.position).trans
          (List.perm_cons_erase hvmem).symm)
      · rw [List.erase_cons_tail (by simpa using hv)]
        exact hperm.cons a.position

/-- Positions after the shift step, read off the member list. -/
theorem positions_map_shift (mlist : List PlaylistSongRow) (pid t : Nat)
    (h : ∀ r ∈ mlist, r.playlist_id = pid) :
    (mlist.map (shiftUpFrom pid t)).map (fun r => r.position) =
      (mlist.map (fun r => r.position)).map (fun q => if t ≤ q then q + 1 else q) := by
  rw [List.map_map, List.map_map]
  refine List.map_congr_left (fun r hr => ?_)
  simp only [Function.comp]
  rw [shiftUpFrom_position pid t r (h r hr)]

/-- Positions after the compaction step, read off the member list. -/
theorem positions_map_dec (mlist : List PlaylistSongRow) (pid p : Nat)
    (h : ∀ r ∈ mlist, r.playlist_id = pid) :
    (mlist.map (decAbove pid p)).map (fun r => r.position) =
      (mlist.map (fun r => r.position)).map (fun q => if p < q then q - 1 else q) := by
  rw [List.map_map, List.map_map]
  refine List.map_congr_left (fun r hr => ?_)
  simp only [Function.comp]
  rw [decAbove_position pid p r (h r hr)]

/-- The resolved target position of an add call: the supplied position, or
member count + 1 when omitted. -/
def addTarget (s : Store) (pid : Nat) (posArg : Option Nat) : Nat :=
  posArg.getD ((membersOf s.playlist_songs pid).length + 1)

/-- Shape of a successful add: the new row is inserted at the target and
every stored row is passed through the shift step. -/
theorem add_success_eq (s : Store) (pid sid : Nat) (posArg : Option Nat)
    (h1 : playlistExists s pid = true) (h2 : songExists s sid = true)
    (h3 : membershipExists s pid sid = false) :
    addSongToPlaylist s pid sid posArg false =
      (Store.mk s.playlists s.songs
        (PlaylistSongRow.mk pid sid (addTarget s pid posArg) ::
          s.playlist_songs.map (shiftUpFrom pid (addTarget s pid posArg))),
       Except.ok (addTarget s pid posArg)) := by
  simp [addSongToPlaylist, addTarget, h1, h2, h3]

/-- Member rows of the target playlist after a successful add. -/
theorem add_success_membersOf (s : Store) (pid sid : Nat) (posArg : Option Nat)
    (h1 : playlistExists s pid = true) (h2 : songExists s sid = true)
    (h3 : membershipExists s pid sid = false) :
    membersOf (addSongToPlaylist s pid sid posArg false).1.playlist_songs pid =
      PlaylistSongRow.mk pid sid (addTarget s pid posArg) ::
        (membersOf s.playlist_songs pid).map (shiftUpFrom pid (addTarget s pid posArg)) := by
  rw [add_success_eq s pid sid posArg h1 h2 h3]
  dsimp only
  rw [membersOf_cons_self _ _ _ rfl,
    membersOf_map _ (shiftUpFrom_playlist_id pid _) _ _]

/-- Shape of a successful remove: the keyed row is deleted and every
remaining stored row is passed through the compaction step. -/
theorem remove_success_eq (s : Store) (pid sid : Nat) (row : PlaylistSongRow)
    (hfind : s.playlist_songs.find? (isMemberRow pid sid) = some row) :
    removeSongFromPlaylist s pid sid false =
      (Store.mk s.playlists s.songs
        ((s.playlist_songs.filter (fun r => !(isMemberRow pid sid r))).map
          (decAbove pid row.position)),
       Except.ok ()) := by
  simp [removeSongFromPlaylist, hfind]

theorem find?_member_facts (s : Store) (pid sid : Nat) (row : PlaylistSongRow)
    (hfind : s.playlist_songs.find? (isMemberRow pid sid) = some row) :
    row ∈ membersOf s.playlist_songs pid ∧ row.playlist_id = pid ∧ row.song_id = sid := by
  have hmem : row ∈ s.playlist_songs := List.mem_of_find?_eq_some hfind
  have hp : isMemberRow pid sid row = true := List.find?_some hfind
  simp only [isMemberRow, Bool.and_eq_true, beq_iff_eq] at hp
  exact ⟨(mem_membersOf _ _ _).mpr ⟨hmem, hp.1⟩, hp.1, hp.2⟩

/-- Member rows of the target playlist after a successful remove. -/
theorem remove_success_membersOf (s : Store) (pid sid : Nat) (row : PlaylistSongRow)
    (hfind : s.playlist_songs.find? (isMemberRow pid sid) = some row) :
    membersOf (removeSongFromPlaylist s pid sid false).1.playlist_songs pid =
      ((membersOf s.playlist_songs pid).filter (fun r => !(r.song_id == sid))).map
        (decAbove pid row.position) := by
  rw [remove_success_eq s pid sid row hfind]
  dsimp only
  rw [membersOf_map _ (decAbove_playlist_id pid _) _ _, membersOf_filter]
  congr 1
  refine List.filter_congr (fun r hr => ?_)
  have hpid : r.playlist_id = pid := ((mem_membersOf _ _ _).mp hr).2
  simp [isMemberRow, hpid]

theorem song_id_not_mem_of_no_membership (s : Store) (pid sid : Nat)
    (h3 : membershipExists s pid sid = false) :
    sid ∉ (membersOf s.playlist_songs pid).map (fun r => r.song_id) := by
  intro hmem
  rcases List.mem_map.mp hmem with ⟨r, hr, hrs⟩
  obtain ⟨hr', hpid⟩ := (mem_membersOf _ _ _).mp hr
  have hany : s.playlist_songs.any (isMemberRow pid sid) = true :=
    List.any_eq_true.mpr ⟨r, hr', by simp [isMemberRow, hpid, hrs]⟩
  rw [membershipExists] at h3
  rw [h3] at hany
  cases hany

/-- The density half of well-formedness, as a permutation with an explicit
contiguous run. -/
theorem dense_perm_of_wf (s : Store) (pid : Nat) (hWf : WfPlaylist s pid) :
    List.Perm ((membersOf s.playlist_songs pid).map (fun r => r.position))
      (List.range' 1 (membersOf s.playlist_songs pid).length) := by
  have hd := hWf.1
  unfold densePositions positionsOf at hd
  rwa [List.length_map] at hd

theorem add_success_dense (s : Store) (pid sid : Nat) (posArg : Option Nat)
    (h1 : playlistExists s pid = true) (h2 : songExists s sid = true)
    (h3 : membershipExists s pid sid = false) (hWf : WfPlaylist s pid)
    (ht1 : 1 ≤ addTarget s pid posArg)
    (ht2 : addTarget s pid posArg ≤ (membersOf s.playlist_songs pid).length + 1) :
    densePositions
      (positionsOf (addSongToPlaylist s pid sid posArg false).1.playlist_songs pid) := by
  unfold positionsOf
  rw [add_success_membersOf s pid sid posArg h1 h2 h3, List.map_cons,
    positions_map_shift _ pid _ (fun r hr => ((mem_membersOf _ _ _).mp hr).2)]
  apply densePositions_of_perm _ ((membersOf s.playlist_songs pid).length + 1)
  have hpos := dense_perm_of_wf s pid hWf
  exact ((hpos.map _).cons _).trans
    (shift_cons_perm_range (addTarget s pid posArg)
      (membersOf s.playlist_songs pid).length ht1 ht2)

theorem add_success_nodup (s : Store) (pid sid : Nat) (posArg : Option Nat)
    (h1 : playlistExists s pid = true) (h2 : songExists s sid = true)
    (h3 : membershipExists s pid sid = false) (hWf : WfPlaylist s pid) :
    List.Nodup
      ((membersOf (addSongToPlaylist s pid sid posArg false).1.playlist_songs pid).map
        (fun r => r.song_id)) := by
  rw [add_success_membersOf s pid sid posArg h1 h2 h3, List.map_cons, List.map_map]
  have hcomp : (membersOf s.playlist_songs pid).map
      ((fun r => r.song_id) ∘ shiftUpFrom pid (addTarget s pid posArg)) =
      (membersOf s.playlist_songs pid).map (fun r => r.song_id) :=
    List.map_congr_left (fun r _ => shiftUpFrom_song_id pid _ r)
  rw [hcomp, List.nodup_cons]
  exact ⟨song_id_not_mem_of_no_membership s pid sid h3, hWf.2⟩

theorem remove_success_dense (s : Store) (pid sid : Nat) (row : PlaylistSongRow)
    (hfind : s.playlist_songs.find? (isMemberRow pid sid) = some row)
    (hWf : WfPlaylist s pid) :
    densePositions
      (positionsOf (removeSongFromPlaylist s pid sid false).1.playlist_songs pid) := by
  obtain ⟨hrowm, hrp, hrs⟩ := find?_member_facts s pid sid row hfind
  have hd := dense_perm_of_wf s pid hWf
  have hPrange : row.position ∈
      List.range' 1 (membersOf s.playlist_songs pid).length :=
    hd.mem_iff.mp (List.mem_map.mpr ⟨row, hrowm, rfl⟩)
  rw [List.mem_range'_1] at hPrange
  unfold positionsOf
  rw [remove_success_membersOf s pid sid row hfind,
    positions_map_dec _ pid _ (fun r hr =>
      ((mem_membersOf _ _ _).mp (List.mem_of_mem_filter hr)).2)]
  apply densePositions_of_perm _ ((membersOf s.playlist_songs pid).length - 1)
  have hfo := positions_filter_out (membersOf s.playlist_songs pid) sid row hrowm hrs hWf.2
  have herange := erase_dec_eq_range row.position
    (membersOf s.playlist_songs pid).length hPrange.1 (by omega)
  exact herange ▸ ((hfo.map _).trans ((hd.erase row.position).map _))

theorem remove_success_nodup (s : Store) (pid sid : Nat) (row : PlaylistSongRow)
    (hfind : s.playlist_songs.find? (isMemberRow pid sid) = some row)
    (hWf : WfPlaylist s pid) :
    List.Nodup
      ((membersOf (removeSongFromPlaylist s pid sid false).1.playlist_songs pid).map
        (fun r => r.song_id)) := by
  rw [remove_success_membersOf s pid sid row hfind, List.map_map]
  have hcomp : ((membersOf s.playlist_songs pid).filter
        (fun r => !(r.song_id == sid))).map
      ((fun r => r.song_id) ∘ decAbove pid row.position) =
      ((membersOf s.playlist_songs pid).filter (fun r => !(r.song_id == sid))).map
        (fun r => r.song_id) :=
    List.map_congr_left (fun r _ => decAbove_song_id pid _ r)
  rw [hcomp]
  exact hWf.2.sublist ((List.filter_sublist _).map _)

/-! ### Failing calls leave the state unchanged -/

theorem add_fst_cases (s : Store) (pid sid : Nat) (posArg : Option Nat) (fault : Bool) :
    (addSongToPlaylist s pid sid posArg fault).1 = s ∨
    (playlistExists s pid = true ∧ songExists s sid = true ∧
      membershipExists s pid sid = false ∧ fault = false) := by
  by_cases h1 : playlistExists s pid = false
  · left; simp [addSongToPlaylist, h1]
  · by_cases h2 : songExists s sid = false
    · left; simp [addSongToPlaylist, h1, h2]
    · by_cases h3 : membershipExists s pid sid
      · left; simp [addSongToPlaylist, h1, h2, h3]
      · by_cases h4 : fault
        · left; simp [addSongToPlaylist, h1, h2, h3, h4]
        · right
          exact ⟨by simpa using h1, by simpa using h2, by simpa using h3,
            by simpa using h4⟩

theorem remove_fst_cases (s : Store) (pid sid : Nat) (fault : Bool) :
    (removeSongFromPlaylist s pid sid fault).1 = s ∨
    (∃ row, s.playlist_songs.find? (isMemberRow pid sid) = some row ∧ fault = false) := by
  rcases hfind : s.playlist_songs.find? (isMemberRow pid sid) with _ | row
  · left; simp [removeSongFromPlaylist, hfind]
  · by_cases h4 : fault
    · left; simp [removeSongFromPlaylist, hfind, h4]
    · right; exact ⟨row, hfind ▸ rfl, by simpa using h4⟩

/-! ### Preservation of well-formedness along add/remove traces -/

theorem wf_add_step (s : Store) (pid sid : Nat) (posArg : Option Nat)
    (hWf : WfPlaylist s pid)
    (hrange : opInRange pid s (MembershipOp.add sid posArg)) :
    WfPlaylist (addSongToPlaylist s pid sid posArg false).1 pid := by
  rcases add_fst_cases s pid sid posArg false with h | ⟨h1, h2, h3, _⟩
  · rw [h]; exact hWf
  · have hbounds : 1 ≤ addTarget s pid posArg ∧
        addTarget s pid posArg ≤ (membersOf s.playlist_songs pid).length + 1 := by
      cases posArg with
      | none => simp [addTarget]
      | some p => simpa [addTarget, opInRange] using hrange
    exact ⟨add_success_dense s pid sid posArg h1 h2 h3 hWf hbounds.1 hbounds.2,
      add_success_nodup s pid sid posArg h1 h2 h3 hWf⟩

theorem wf_remove_step (s : Store) (pid sid : Nat) (hWf : WfPlaylist s pid) :
    WfPlaylist (removeSongFromPlaylist s pid sid false).1 pid := by
  rcases remove_fst_cases s pid sid false with h | ⟨row, hfind, _⟩
  · rw [h]; exact hWf
  · exact ⟨remove_success_dense s pid sid row hfind hWf,
      remove_success_nodup s pid sid row hfind hWf⟩

theorem wf_applyOp (pid : Nat) (s : Store) (op : MembershipOp)
    (hWf : WfPlaylist s pid) (hr : opInRange pid s op) :
    WfPlaylist (applyOp pid s op) pid := by
  cases op with
  | add sid posArg => exact wf_add_step s pid sid posArg hWf hr
  | remove sid => exact wf_remove_step s pid sid hWf

theorem wf_applyOps (pid : Nat) (ops : List MembershipOp) (s : Store)
    (hWf : WfPlaylist s pid) (hr : opsInRange pid s ops) :
    WfPlaylist (applyOps pid s ops) pid := by
  induction ops generalizing s with
  | nil => exact hWf
  | cons op t ih =>
    exact ih (applyOp pid s op) (wf_applyOp pid s op hWf hr.1) hr.2

theorem opsInRange_append_left (pid : Nat) (t u : List MembershipOp) (s : Store)
    (h : opsInRange pid s (t ++ u)) : opsInRange pid s t := by
  induction t generalizing s with
  | nil => trivial
  | cons op t ih => exact ⟨h.1, ih (applyOp pid s op) h.2⟩

/-! ### Claim theorems -/

/-- C2: adding song `sid` at position `p` (`1 ≤ p ≤ k + 1`) to a `k`-member
playlist echoes `p` back, increments the position of every existing member at
position `≥ p`, leaves members below `p` unchanged, and inserts the new row
at exactly position `p`, in one atomic step. -/
theorem C2_insert_with_shift (s : Store) (pid sid p : Nat)
    (h1 : playlistExists s pid = true) (h2 : songExists s sid = true)
    (h3 : membershipExists s pid sid = false)
    (hp1 : 1 ≤ p) (hpk : p ≤ (membersOf s.playlist_songs pid).length + 1) :
    (addSongToPlaylist s pid sid (some p) false).2 = Except.ok p ∧
    membersOf (addSongToPlaylist s pid sid (some p) false).1.playlist_songs pid =
      PlaylistSongRow.mk pid sid p ::
        (membersOf s.playlist_songs pid).map (shiftUpFrom pid p) ∧
    (∀ r ∈ membersOf s.playlist_songs pid, p ≤ r.position →
      PlaylistSongRow.mk pid r.song_id (r.position + 1) ∈
        membersOf (addSongToPlaylist s pid sid (some p) false).1.playlist_songs pid) ∧
    (∀ r ∈ membersOf s.playlist_songs pid, r.position < p →
      r ∈ membersOf (addSongToPlaylist s pid sid (some p) false).1.playlist_songs pid) ∧
    PlaylistSongRow.mk pid sid p ∈
      membersOf (addSongToPlaylist s pid sid (some p) false).1.playlist_songs pid := by
  have hM := add_success_membersOf s pid sid (some p) h1 h2 h3
  have htarget : addTarget s pid (some p) = p := rfl
  rw [htarget] at hM
  refine ⟨?_, hM, ?_, ?_, ?_⟩
  · rw [add_success_eq s pid sid (some p) h1 h2 h3]
    rfl
  · intro r hr hple
    rw [hM]
    apply List.mem_cons_of_mem
    refine List.mem_map.mpr ⟨r, hr, ?_⟩
    have hpid := ((mem_membersOf _ _ _).mp hr).2
    obtain ⟨rp, rs, rpos⟩ := r
    simp only at hpid hple
    subst hpid
    unfold shiftUpFrom
    rw [if_pos ⟨rfl, hple⟩]
  · intro r hr hlt
    rw [hM]
    apply List.mem_cons_of_mem
    refine List.mem_map.mpr ⟨r, hr, ?_⟩
    unfold shiftUpFrom
    rw [if_neg (fun hc => absurd hc.2 (by omega))]
  · rw [hM]
    exact List.mem_cons_self _ _

/-- C2 witness: on `[A@1, B@2, C@3]`, adding song 13 at position 2 succeeds
and echoes position 2. -/
theorem C2_insert_with_shift_witness :
    playlistExists ⟨[⟨1, 1⟩], [10, 11, 12, 13], [⟨1, 10, 1⟩, ⟨1, 11, 2⟩, ⟨1, 12, 3⟩]⟩ 1 = true ∧
    songExists ⟨[⟨1, 1⟩], [10, 11, 12, 13], [⟨1, 10, 1⟩, ⟨1, 11, 2⟩, ⟨1, 12, 3⟩]⟩ 13 = true ∧
    membershipExists ⟨[⟨1, 1⟩], [10, 11, 12, 13], [⟨1, 10, 1⟩, ⟨1, 11, 2⟩, ⟨1, 12, 3⟩]⟩ 1 13 = false ∧
    (addSongToPlaylist ⟨[⟨1, 1⟩], [10, 11, 12, 13], [⟨1, 10, 1⟩, ⟨1, 11, 2⟩, ⟨1, 12, 3⟩]⟩
      1 13 (some 2) false).2 = Except.ok 2 :=
  ⟨by decide, by decide, by decide,
    (C2_insert_with_shift ⟨[⟨1, 1⟩], [10, 11, 12, 13], [⟨1, 10, 1⟩, ⟨1, 11, 2⟩, ⟨1, 12, 3⟩]⟩
      1 13 2 (by decide) (by decide) (by decide) (by decide) (by decide)).1⟩

/-- C3: removing the member `sid` found at position `row.position` deletes
its row, leaves lower members untouched, decrements every higher member by
exactly one, and restores density. -/
theorem C3_remove_compaction (s : Store) (pid sid : Nat) (row : PlaylistSongRow)
    (hfind : s.playlist_songs.find? (isMemberRow pid sid) = some row)
    (hWf : WfPlaylist s pid) :
    (removeSongFromPlaylist s pid sid false).2 = Except.ok () ∧
    membersOf (removeSongFromPlaylist s pid sid false).1.playlist_songs pid =
      ((membersOf s.playlist_songs pid).filter (fun r => !(r.song_id == sid))).map
        (decAbove pid row.position) ∧
    (∀ r ∈ membersOf s.playlist_songs pid, r.song_id ≠ sid →
      r.position < row.position →
      r ∈ membersOf (removeSongFromPlaylist s pid sid false).1.playlist_songs pid) ∧
    (∀ r ∈ membersOf s.playlist_songs pid, r.song_id ≠ sid →
      row.position < r.position →
      PlaylistSongRow.mk pid r.song_id (r.position - 1) ∈
        membersOf (removeSongFromPlaylist s pid sid false).1.playlist_songs pid) ∧
    densePositions
      (positionsOf (removeSongFromPlaylist s pid sid false).1.playlist_songs pid) := by
  have hM := remove_success_membersOf s pid sid row hfind
  refine ⟨?_, hM, ?_, ?_, remove_success_dense s pid sid row hfind hWf⟩
  · rw [remove_success_eq s pid sid row hfind]
  · intro r hr hne hlt
    rw [hM]
    refine List.mem_map.mpr ⟨r, List.mem_filter.mpr ⟨hr, by simp [hne]⟩, ?_⟩
    unfold decAbove
    rw [if_neg (fun hc => absurd hc.2 (by omega))]
  · intro r hr hne hgt
    rw [hM]
    refine List.mem_map.mpr ⟨r, List.mem_filter.mpr ⟨hr, by simp [hne]⟩, ?_⟩
    have hpid := ((mem_membersOf _ _ _).mp hr).2
    obtain ⟨rp, rs, rpos⟩ := r
    simp only at hpid hgt
    subst hpid
    unfold decAbove
    rw [if_pos ⟨rfl, hgt⟩]

/-- C3 witness: on `[A@1, B@2, C@3]`, removing song 11 (at position 2)
succeeds. -/
theorem C3_remove_compaction_witness :
    (⟨[⟨1, 1⟩], [10, 11, 12], [⟨1, 10, 1⟩, ⟨1, 11, 2⟩, ⟨1, 12, 3⟩]⟩ : Store).playlist_songs.find?
      (isMemberRow 1 11) = some ⟨1, 11, 2⟩ ∧
    WfPlaylist ⟨[⟨1, 1⟩], [10, 11, 12], [⟨1, 10, 1⟩, ⟨1, 11, 2⟩, ⟨1, 12, 3⟩]⟩ 1 ∧
    (removeSongFromPlaylist ⟨[⟨1, 1⟩], [10, 11, 12], [⟨1, 10, 1⟩, ⟨1, 11, 2⟩, ⟨1, 12, 3⟩]⟩
      1 11 false).2 = Except.ok () :=
  ⟨by decide, by decide,
    (C3_remove_compaction ⟨[⟨1, 1⟩], [10, 11, 12], [⟨1, 10, 1⟩, ⟨1, 11, 2⟩, ⟨1, 12, 3⟩]⟩
      1 11 ⟨1, 11, 2⟩ (by decide) (by decide)).1⟩

/-- C4: adding a song with the position argument omitted succeeds, assigns
position `k + 1` for a `k`-member playlist, and echoes that position back. -/
theorem C4_append_default (s : Store) (pid sid : Nat)
    (h1 : playlistExists s pid = true) (h2 : songExists s sid = true)
    (h3 : membershipExists s pid sid = false) :
    (addSongToPlaylist s pid sid none false).2 =
      Except.ok ((membersOf s.playlist_songs pid).length + 1) ∧
    PlaylistSongRow.mk pid sid ((membersOf s.playlist_songs pid).length + 1) ∈
      membersOf (addSongToPlaylist s pid sid none false).1.playlist_songs pid := by
  constructor
  · rw [add_success_eq s pid sid none h1 h2 h3]
    rfl
  · rw [add_success_membersOf s pid sid none h1 h2 h3]
    exact List.mem_cons_self _ _

/-- C4 witness: on an empty playlist the assigned position is 1. -/
theorem C4_append_default_witness :
    playlistExists ⟨[⟨1, 1⟩], [10], []⟩ 1 = true ∧
    songExists ⟨[⟨1, 1⟩], [10], []⟩ 10 = true ∧
    membershipExists ⟨[⟨1, 1⟩], [10], []⟩ 1 10 = false ∧
    (addSongToPlaylist ⟨[⟨1, 1⟩], [10], []⟩ 1 10 none false).2 = Except.ok 1 :=
  ⟨by decide, by decide, by decide,
    (C4_append_default ⟨[⟨1, 1⟩], [10], []⟩ 1 10 (by decide) (by decide) (by decide)).1⟩

/-- C6: adding a song that is already a member fails with
Conflict("Song already in playlist") and returns the store unchanged,
whatever the position argument or injected fault. -/
theorem C6_duplicate_rejection (s : Store) (pid sid : Nat) (posArg : Option Nat)
    (fault : Bool)
    (h1 : playlistExists s pid = true) (h2 : songExists s sid = true)
    (hdup : membershipExists s pid sid = true) :
    addSongToPlaylist s pid sid posArg fault =
      (s, Except.error (ApiError.conflict "Song already in playlist")) := by
  simp [addSongToPlaylist, h1, h2, hdup]

/-- C6 witness: spec scenario 4, re-adding song 10 to `[A@1, B@2]`. -/
theorem C6_duplicate_rejection_witness :
    playlistExists ⟨[⟨1, 1⟩], [10, 11], [⟨1, 10, 1⟩, ⟨1, 11, 2⟩]⟩ 1 = true ∧
    songExists ⟨[⟨1, 1⟩], [10, 11], [⟨1, 10, 1⟩, ⟨1, 11, 2⟩]⟩ 10 = true ∧
    membershipExists ⟨[⟨1, 1⟩], [10, 11], [⟨1, 10, 1⟩, ⟨1, 11, 2⟩]⟩ 1 10 = true ∧
    addSongToPlaylist ⟨[⟨1, 1⟩], [10, 11], [⟨1, 10, 1⟩, ⟨1, 11, 2⟩]⟩ 1 10 (some 2) false =
      (⟨[⟨1, 1⟩], [10, 11], [⟨1, 10, 1⟩, ⟨1, 11, 2⟩]⟩,
       Except.error (ApiError.conflict "Song already in playlist")) :=
  ⟨by decide, by decide, by decide,
    C6_duplicate_rejection ⟨[⟨1, 1⟩], [10, 11], [⟨1, 10, 1⟩, ⟨1, 11, 2⟩]⟩ 1 10 (some 2) false
      (by decide) (by decide) (by decide)⟩

/-- Shape of a successful reorder: only the keyed row is rewritten. -/
theorem reorder_success_eq (s : Store) (pid sid newPos : Nat)
    (hmem : membershipExists s pid sid = true) :
    reorderSong s pid sid newPos false =
      (Store.mk s.playlists s.songs
        (s.playlist_songs.map (fun r =>
          if isMemberRow pid sid r then { r with position := newPos } else r)),
       Except.ok newPos) := by
  simp [reorderSong, hmem]

/-- C5: reordering member `sid` of playlist `pid` to position `N` echoes `N`
back, rewrites only that row's position, keeps every other stored row
literally unchanged, and leaves every other playlist's member rows
untouched — no renumbering occurs, whatever `N` is. -/
theorem C5_reorder_overwrite (s : Store) (pid sid N : Nat)
    (hmem : membershipExists s pid sid = true) (hN : 1 ≤ N) :
    (reorderSong s pid sid N false).2 = Except.ok N ∧
    (reorderSong s pid sid N false).1.playlist_songs =
      s.playlist_songs.map (fun r =>
        if isMemberRow pid sid r then { r with position := N } else r) ∧
    (∀ r ∈ s.playlist_songs, isMemberRow pid sid r = false →
      r ∈ (reorderSong s pid sid N false).1.playlist_songs) ∧
    (∀ r ∈ s.playlist_songs, isMemberRow pid sid r = true →
      PlaylistSongRow.mk pid sid N ∈ (reorderSong s pid sid N false).1.playlist_songs) ∧
    (∀ qid, qid ≠ pid →
      membersOf (reorderSong s pid sid N false).1.playlist_songs qid =
        membersOf s.playlist_songs qid) := by
  have heq := reorder_success_eq s pid sid N hmem
  refine ⟨?_, ?_, ?_, ?_, ?_⟩
  · rw [heq]
  · rw [heq]
  · intro r hr hkey
    rw [heq]
    dsimp only
    refine List.mem_map.mpr ⟨r, hr, ?_⟩
    simp [hkey]
  · intro r hr hkey
    rw [heq]
    dsimp only
    refine List.mem_map.mpr ⟨r, hr, ?_⟩
    have hrk : r.playlist_id = pid ∧ r.song_id = sid := by
      simpa [isMemberRow] using hkey
    obtain ⟨rp, rs, rpos⟩ := r
    obtain ⟨e1, e2⟩ := hrk
    simp only at e1 e2
    subst e1
    subst e2
    simp [isMemberRow]
  · intro qid hq
    rw [heq]
    dsimp only
    rw [membersOf_map _ (fun r => by split <;> rfl) _ _]
    have hid : ∀ r ∈ membersOf s.playlist_songs qid,
        (if isMemberRow pid sid r then { r with position := N } else r) = r := by
      intro r hr
      have hpid := ((mem_membersOf _ _ _).mp hr).2
      have hfalse : isMemberRow pid sid r = false := by
        simp [isMemberRow, hpid, hq]
      simp [hfalse]
    rw [List.map_congr_left hid]
    simp

/-- C5 witness: spec scenario 5, reorder the only member to position 5. -/
theorem C5_reorder_overwrite_witness :
    membershipExists ⟨[⟨1, 1⟩], [10], [⟨1, 10, 1⟩]⟩ 1 10 = true ∧
    (reorderSong ⟨[⟨1, 1⟩], [10], [⟨1, 10, 1⟩]⟩ 1 10 5 false).2 = Except.ok 5 :=
  ⟨by decide,
    (C5_reorder_overwrite ⟨[⟨1, 1⟩], [10], [⟨1, 10, 1⟩]⟩ 1 10 5 (by decide) (by decide)).1⟩

/-- C7: add fails with NotFound("Playlist not found") when the playlist id
does not exist, with NotFound("Song not found") when the playlist exists but
the song id does not; remove and reorder fail with
NotFound("Song not found in playlist") whenever the membership row does not
exist — each time returning the store unchanged. -/
theorem C7_not_found_outcomes (s : Store) (pid sid : Nat) (posArg : Option Nat)
    (newPos : Nat) (fault : Bool) :
    (playlistExists s pid = false →
      addSongToPlaylist s pid sid posArg fault =
        (s, Except.error (ApiError.notFound "Playlist not found"))) ∧
    (playlistExists s pid = true → songExists s sid = false →
      addSongToPlaylist s pid sid posArg fault =
        (s, Except.error (ApiError.notFound "Song not found"))) ∧
    (membershipExists s pid sid = false →
      removeSongFromPlaylist s pid sid fault =
        (s, Except.error (ApiError.notFound "Song not found in playlist"))) ∧
    (membershipExists s pid sid = false →
      reorderSong s pid sid newPos fault =
        (s, Except.error (ApiError.notFound "Song not found in playlist"))) := by
  refine ⟨fun h1 => by simp [addSongToPlaylist, h1],
    fun h1 h2 => by simp [addSongToPlaylist, h1, h2],
    fun h => ?_,
    fun h => by simp [reorderSong, h]⟩
  have hfind : s.playlist_songs.find? (isMemberRow pid sid) = none := by
    rw [List.find?_eq_none]
    simp only [membershipExists] at h
    exact fun x hx => List.any_eq_false.mp h x hx
  simp [removeSongFromPlaylist, hfind]

/-- C7 witness: on a store with one empty playlist, adding a missing song
fails with NotFound("Song not found"). -/
theorem C7_not_found_outcomes_witness :
    playlistExists ⟨[⟨1, 1⟩], [10], []⟩ 1 = true ∧
    songExists ⟨[⟨1, 1⟩], [10], []⟩ 99 = false ∧
    addSongToPlaylist ⟨[⟨1, 1⟩], [10], []⟩ 1 99 (some 1) false =
      (⟨[⟨1, 1⟩], [10], []⟩, Except.error (ApiError.notFound "Song not found")) :=
  ⟨by decide, by decide,
    (C7_not_found_outcomes ⟨[⟨1, 1⟩], [10], []⟩ 1 99 (some 1) 0 false).2.1
      (by decide) (by decide)⟩

/-- C8: whenever add, remove or reorder reports an error of any kind
(NotFound, Conflict or StorageError), the store it returns is exactly the
store it was given — no partial mutation survives a failing call. -/
theorem C8_failure_atomicity (s : Store) (pid sid : Nat) (posArg : Option Nat)
    (newPos : Nat) (fault : Bool) :
    (∀ e, (addSongToPlaylist s pid sid posArg fault).2 = Except.error e →
      (addSongToPlaylist s pid sid posArg fault).1 = s) ∧
    (∀ e, (removeSongFromPlaylist s pid sid fault).2 = Except.error e →
      (removeSongFromPlaylist s pid sid fault).1 = s) ∧
    (∀ e, (reorderSong s pid sid newPos fault).2 = Except.error e →
      (reorderSong s pid sid newPos fault).1 = s) := by
  refine ⟨fun e he => ?_, fun e he => ?_, fun e he => ?_⟩
  · rcases add_fst_cases s pid sid posArg fault with h | ⟨h1, h2, h3, h4⟩
    · exact h
    · subst h4
      rw [add_success_eq s pid sid posArg h1 h2 h3] at he
      cases he
  · rcases remove_fst_cases s pid sid fault with h | ⟨row, hfind, h4⟩
    · exact h
    · subst h4
      rw [remove_success_eq s pid sid row hfind] at he
      cases he
  · by_cases hm : membershipExists s pid sid = false
    · simp [reorderSong, hm]
    · have hm' : membershipExists s pid sid = true := by simpa using hm
      by_cases h4 : fault
      · simp [reorderSong, hm', h4]
      · have h4' : fault = false := by simpa using h4
        subst h4'
        rw [reorder_success_eq s pid sid newPos hm'] at he
        cases he

/-- C8 witness: an add against a missing playlist errors and returns the
store unchanged. -/
theorem C8_failure_atomicity_witness :
    (addSongToPlaylist ⟨[], [10], []⟩ 1 10 none false).2 =
      Except.error (ApiError.notFound "Playlist not found") ∧
    (addSongToPlaylist ⟨[], [10], []⟩ 1 10 none false).1 = ⟨[], [10], []⟩ :=
  ⟨rfl,
    (C8_failure_atomicity ⟨[], [10], []⟩ 1 10 none 0 false).1
      (ApiError.notFound "Playlist not found") rfl⟩

/-- C1 counterexample: the claim as stated quantifies over every finite
add/remove sequence, but a single applied (and accepted) add at position 5
into an empty playlist leaves the position set `{5}`, not `{1}` — density is
broken at a point observed between operations. -/
theorem C1_density_counterexample :
    (addSongToPlaylist ⟨[⟨1, 1⟩], [10], []⟩ 1 10 (some 5) false).2 = Except.ok 5 ∧
    ¬ densePositions
      (positionsOf
        (applyOps 1 ⟨[⟨1, 1⟩], [10], []⟩ [MembershipOp.add 10 (some 5)]).playlist_songs 1) :=
  ⟨rfl, by decide⟩

/-- C1 (amended): for a well-formed playlist, after any finite sequence of
add/remove operations in which every add that supplies an explicit position
supplies one between 1 and the playlist's current member count + 1, the set
of positions in use is exactly `{1, ..., k}` at every point observed between
operations (every prefix of the sequence). -/
theorem C1_density_invariant (s : Store) (pid : Nat) (ops : List MembershipOp)
    (hWf : WfPlaylist s pid) (hR : opsInRange pid s ops) :
    ∀ t u, ops = t ++ u →
      densePositions (positionsOf (applyOps pid s t).playlist_songs pid) := by
  intro t u hsplit
  subst hsplit
  exact (wf_applyOps pid t s hWf (opsInRange_append_left pid t u s hR)).1

/-- C1 witness: a well-formed store, an in-range trace
(append, insert at 1, remove), and density observed after its two-step
prefix. -/
theorem C1_density_invariant_witness :
    WfPlaylist ⟨[⟨1, 1⟩], [10, 11, 12], []⟩ 1 ∧
    opsInRange 1 ⟨[⟨1, 1⟩], [10, 11, 12], []⟩
      [MembershipOp.add 10 none, MembershipOp.add 11 (some 1), MembershipOp.remove 10] ∧
    densePositions
      (positionsOf
        (applyOps 1 ⟨[⟨1, 1⟩], [10, 11, 12], []⟩
          [MembershipOp.add 10 none, MembershipOp.add 11 (some 1)]).playlist_songs 1) :=
  ⟨by decide, by decide,
    C1_density_invariant ⟨[⟨1, 1⟩], [10, 11, 12], []⟩ 1
      [MembershipOp.add 10 none, MembershipOp.add 11 (some 1), MembershipOp.remove 10]
      (by decide) (by decide)
      [MembershipOp.add 10 none, MembershipOp.add 11 (some 1)]
      [MembershipOp.remove 10] rfl⟩

/-- Shape of a successful song deletion. -/
theorem deleteSong_success_eq (s : Store) (sid : Nat)
    (hsg : songExists s sid = true) :
    deleteSong s sid false =
      (Store.mk s.playlists (s.songs.filter (fun q => !(q == sid)))
        ((s.playlist_songs.filter (fun r => !(r.song_id == sid))).map
          (decForSongDelete s.playlist_songs sid)),
       Except.ok ()) := by
  simp [deleteSong, hsg]

/-- Member rows of any playlist after a successful song deletion. -/
theorem deleteSong_membersOf (s : Store) (sid qid : Nat)
    (hsg : songExists s sid = true) :
    membersOf (deleteSong s sid false).1.playlist_songs qid =
      ((membersOf s.playlist_songs qid).filter (fun r => !(r.song_id == sid))).map
        (decForSongDelete s.playlist_songs sid) := by
  rw [deleteSong_success_eq s sid hsg]
  dsimp only
  rw [membersOf_map _ (decForSongDelete_playlist_id _ _) _ _, membersOf_filter]

/-- On the members of playlist `qid` that contained `sid` at row `q`, the
per-row song-deletion compaction agrees with remove's compaction step. -/
theorem decForSongDelete_eq_decAbove (s : Store) (sid qid : Nat)
    (q : PlaylistSongRow)
    (hq : s.playlist_songs.find? (isMemberRow qid sid) = some q)
    (r : PlaylistSongRow) (hr : r.playlist_id = qid) :
    decForSongDelete s.playlist_songs sid r = decAbove qid q.position r := by
  obtain ⟨rp, rs, rpos⟩ := r
  simp only at hr
  subst hr
  unfold decForSongDelete
  rw [hq]
  dsimp only
  unfold decAbove
  by_cases hlt : q.position < rpos
  · rw [if_pos hlt, if_pos ⟨rfl, hlt⟩]
  · rw [if_neg hlt, if_neg (fun hc => hlt hc.2)]

/-- C9: deleting a playlist succeeds and leaves it with no member rows;
deleting a song succeeds, leaves no membership row carrying that song in any
playlist, and every playlist that was well-formed is dense again afterwards
(each affected playlist is compacted independently). -/
theorem C9_cascade (s : Store) (pid sid : Nat)
    (hpl : playlistExists s pid = true) (hsg : songExists s sid = true) :
    ((deletePlaylist s pid false).2 = Except.ok () ∧
      membersOf (deletePlaylist s pid false).1.playlist_songs pid = []) ∧
    ((deleteSong s sid false).2 = Except.ok () ∧
      (∀ r ∈ (deleteSong s sid false).1.playlist_songs, r.song_id ≠ sid) ∧
      (∀ qid, WfPlaylist s qid →
        densePositions (positionsOf (deleteSong s sid false).1.playlist_songs qid))) := by
  refine ⟨⟨?_, ?_⟩, ?_, ?_, ?_⟩
  · simp [deletePlaylist, hpl]
  · have heq : (deletePlaylist s pid false).1.playlist_songs =
        s.playlist_songs.filter (fun r => !(r.playlist_id == pid)) := by
      simp [deletePlaylist, hpl]
    rw [heq, membersOf, List.filter_eq_nil_iff]
    intro r hrmem
    have := (List.mem_filter.mp hrmem).2
    simpa using this
  · rw [deleteSong_success_eq s sid hsg]
  · intro r hrmem
    rw [deleteSong_success_eq s sid hsg] at hrmem
    dsimp only at hrmem
    rcases List.mem_map.mp hrmem with ⟨r0, hr0, hr0eq⟩
    have hne : r0.song_id ≠ sid := by
      have := (List.mem_filter.mp hr0).2
      simpa using this
    rw [← hr0eq, decForSongDelete_song_id]
    exact hne
  · intro qid hWfq
    rcases hq : s.playlist_songs.find? (isMemberRow qid sid) with _ | q
    · -- no playlist member carries `sid`: positions are untouched
      have hnosid : ∀ r ∈ membersOf s.playlist_songs qid, ¬(r.song_id = sid) := by
        intro r hr hrs
        have hall := List.find?_eq_none.mp hq
        obtain ⟨hrmem, hrpid⟩ := (mem_membersOf _ _ _).mp hr
        exact absurd (by simp [isMemberRow, hrpid, hrs]) (hall r hrmem)
      have hfix : (membersOf s.playlist_songs qid).filter
          (fun r => !(r.song_id == sid)) = membersOf s.playlist_songs qid := by
        rw [List.filter_eq_self]
        intro r hr
        simpa using hnosid r hr
      have hid : ∀ r ∈ membersOf s.playlist_songs qid,
          decForSongDelete s.playlist_songs sid r = r := by
        intro r hr
        unfold decForSongDelete
        rw [((mem_membersOf _ _ _).mp hr).2, hq]
      unfold positionsOf
      rw [deleteSong_membersOf s sid qid hsg, hfix, List.map_congr_left hid]
      simpa [positionsOf] using hWfq.1
    · -- `qid` contained `sid`: its rows end up exactly as after a remove
      have hsame : membersOf (deleteSong s sid false).1.playlist_songs qid =
          membersOf (removeSongFromPlaylist s qid sid false).1.playlist_songs qid := by
        rw [deleteSong_membersOf s sid qid hsg, remove_success_membersOf s qid sid q hq]
        refine List.map_congr_left (fun r hr => ?_)
        exact decForSongDelete_eq_decAbove s sid qid q hq r
          ((mem_membersOf _ _ _).mp (List.mem_of_mem_filter hr)).2
      unfold positionsOf
      rw [hsame]
      exact remove_success_dense s qid sid q hq hWfq

/-- C9 witness: a store with one playlist holding songs 10 and 11; deleting
the playlist and deleting song 10 both succeed. -/
theorem C9_cascade_witness :
    playlistExists ⟨[⟨1, 1⟩], [10, 11], [⟨1, 10, 1⟩, ⟨1, 11, 2⟩]⟩ 1 = true ∧
    songExists ⟨[⟨1, 1⟩], [10, 11], [⟨1, 10, 1⟩, ⟨1, 11, 2⟩]⟩ 10 = true ∧
    membersOf
      (deletePlaylist ⟨[⟨1, 1⟩], [10, 11], [⟨1, 10, 1⟩, ⟨1, 11, 2⟩]⟩ 1 false).1.playlist_songs
      1 = [] :=
  ⟨by decide, by decide,
    ((C9_cascade ⟨[⟨1, 1⟩], [10, 11], [⟨1, 10, 1⟩, ⟨1, 11, 2⟩]⟩ 1 10
      (by decide) (by decide)).1).2⟩

/-- C10: listing playlists by user always succeeds, returns exactly the
playlists whose `user_id` matches, mutates nothing, and yields the empty
list (not a NotFound) when no playlist carries that user id — in particular
for a user id that does not exist at all. -/
theorem C10_playlists_by_user (s : Store) (uid : Nat) :
    (getPlaylistsByUser s uid).1 = s ∧
    (getPlaylistsByUser s uid).2 =
      Except.ok (s.playlists.filter (fun p => p.user_id == uid)) ∧
    (∀ l, (getPlaylistsByUser s uid).2 = Except.ok l →
      ∀ p, p ∈ l ↔ p ∈ s.playlists ∧ p.user_id = uid) ∧
    ((∀ p ∈ s.playlists, p.user_id ≠ uid) →
      (getPlaylistsByUser s uid).2 = Except.ok []) := by
  refine ⟨rfl, rfl, ?_, ?_⟩
  · intro l hl p
    have hl' : s.playlists.filter (fun p => p.user_id == uid) = l := by
      simpa [getPlaylistsByUser] using hl
    rw [← hl']
    simp [List.mem_filter]
  · intro hnone
    have : s.playlists.filter (fun p => p.user_id == uid) = [] := by
      rw [List.filter_eq_nil_iff]
      intro p hp
      simpa using hnone p hp
    simp [getPlaylistsByUser, this]

/-- C10 witness: with playlists owned by users 1 and 2, querying user 1
returns exactly that user's playlists, and querying the non-existent user 99
returns the empty list. -/
theorem C10_playlists_by_user_witness :
    (getPlaylistsByUser ⟨[⟨1, 1⟩, ⟨2, 1⟩, ⟨3, 2⟩], [], []⟩ 1).2 =
      Except.ok [⟨1, 1⟩, ⟨2, 1⟩] ∧
    (∀ p ∈ (⟨[⟨1, 1⟩, ⟨2, 1⟩, ⟨3, 2⟩], [], []⟩ : Store).playlists, p.user_id ≠ 99) ∧
    (getPlaylistsByUser ⟨[⟨1, 1⟩, ⟨2, 1⟩, ⟨3, 2⟩], [], []⟩ 99).2 = Except.ok [] :=
  ⟨rfl, by decide,
    (C10_playlists_by_user ⟨[⟨1, 1⟩, ⟨2, 1⟩, ⟨3, 2⟩], [], []⟩ 99).2.2.2 (by decide)⟩

end PlaylistApi
